import Mathlib

/-!
Verification of the two-level compression-queue engine of this repository
(`core/queue_manager.py`, `core/project_queue_manager.py`,
`core/project_manager.py`, `core/verification_utils.py`,
`core/file_preparation.py`) against its natural-language specification.

The Python sources are shallowly embedded: every stateful method becomes a
pure Lean function on an explicit state record, the filesystem and the
external collaborators (ffprobe, the compressor) become explicit
environment parameters, and Python exceptions become `Except` values.
Python dictionaries (which preserve insertion order) are modelled as
association lists with in-place value update.
-/

namespace FYRC

/-! ## String utilities

Python string primitives used by the sources, implemented on `List Char`.
Paths only ever contain ASCII in this code base, for which `Char.toUpper`
agrees with Python `str.upper`.
-/

/-- Test for a decimal digit (Python `\d` on ASCII input). -/
def isDigitCh (c : Char) : Bool := '0' ≤ c && c ≤ '9'

/-- Python `\s` on ASCII input: space, tab, newline, CR, FF, VT. -/
def pyIsSpace (c : Char) : Bool :=
  c = ' ' || c = '\t' || c = '\n' || c = '\r' || c = '\x0b' || c = '\x0c'

/-- Numeric value of a digit string, most significant digit first
(Python `int` on a digit run). -/
def natOfDigits (l : List Char) : Nat :=
  l.foldl (fun acc c => 10 * acc + (c.toNat - '0'.toNat)) 0

/-- Substring test (Python `pat in s`), scanning left to right. -/
def hasSubstr (pat : List Char) : List Char → Bool
  | [] => pat.isEmpty
  | c :: rest => pat.isPrefixOf (c :: rest) || hasSubstr pat rest

/-- Python `pat in s` on `String`s. -/
def strContains (s pat : String) : Bool := hasSubstr pat.data s.data

/-- Python `str.replace(pat, repl)`: replace every non-overlapping
occurrence, scanning left to right. Structural recursion on a fuel that
starts at the length of the subject (each step consumes at least one
character, so the fuel-exhausted branch is unreachable from
`replaceAll`). -/
def replaceAllFuel (pat repl : List Char) : Nat → List Char → List Char
  | _, [] => []
  | 0, l => l
  | fuel + 1, c :: rest =>
    if pat.isPrefixOf (c :: rest) && !pat.isEmpty then
      repl ++ replaceAllFuel pat repl fuel ((c :: rest).drop pat.length)
    else
      c :: replaceAllFuel pat repl fuel rest

/-- Python `str.replace` on `String`s. -/
def strReplace (s pat repl : String) : String :=
  ⟨replaceAllFuel pat.data repl.data s.data.length s.data⟩

/-- Python `str.upper` (ASCII). -/
def strUpper (s : String) : String := ⟨s.data.map Char.toUpper⟩

/-- Model of `os.path.basename`: the part of the path after the last `/`. -/
def basename (p : String) : String :=
  ⟨p.data.foldl (fun acc c => if c = '/' then [] else acc ++ [c]) []⟩

/-- Python string `<`: lexicographic comparison by code point, with a
proper prefix comparing smaller. -/
def charListLt : List Char → List Char → Bool
  | [], [] => false
  | [], _ :: _ => true
  | _ :: _, [] => false
  | a :: as, b :: bs =>
    a.toNat < b.toNat || (a.toNat = b.toNat && charListLt as bs)

/-! ## Association lists (Python `dict` with insertion order) -/

/-- Assignment `d[k] = v` on a `dict`: replace the value in place if the key is
present, append otherwise. -/
def assocSet {γ : Type} : List (String × γ) → String → γ → List (String × γ)
  | [], k, v => [(k, v)]
  | (k', v') :: rest, k, v =>
    if k' = k then (k, v) :: rest else (k', v') :: assocSet rest k v

/-- Lookup `d.get(k)` on a `dict`. -/
def assocGet {γ : Type} : List (String × γ) → String → Option γ
  | [], _ => none
  | (k', v') :: rest, k => if k' = k then some v' else assocGet rest k

/-- Deletion `del d[k]` on a `dict`: drop the (unique) entry with that key. -/
def assocDel {γ : Type} : List (String × γ) → String → List (String × γ)
  | [], _ => []
  | (k', v') :: rest, k => if k' = k then rest else (k', v') :: assocDel rest k

/-! ## FileJobQueue (`core/queue_manager.py`)

`QueueManager.add_files` together with its helper `extract_file_info`.
The filesystem is abstracted by an `isFile : String → Bool` oracle
(`os.path.isfile`).
-/

/-- The `QueueStatus` enum of `core/queue_manager.py`. -/
inductive QueueStatus
  | pending | processing | completed | failed | cancelled
  deriving DecidableEq, Repr

/-- The slice of `QueueManager` state touched by `add_files`:
`self.queue` and `self.status`. -/
structure FQState where
  queue : List String
  status : List (String × QueueStatus)
  deriving DecidableEq, Repr

/-- Model of the search for regex `CAM\s*(\d+)` (case-insensitive): at the earliest
position where `C`/`c` `A`/`a` `M`/`m` is followed by optional whitespace
and at least one digit, return the value of the (maximal) digit run. -/
def camSearch : List Char → Option Nat
  | [] => none
  | c :: rest =>
    match rest with
    | a :: m :: tail =>
      if (c = 'C' || c = 'c') && (a = 'A' || a = 'a') && (m = 'M' || m = 'm') then
        let afterWs := tail.dropWhile pyIsSpace
        let ds := afterWs.takeWhile isDigitCh
        if ds.isEmpty then camSearch rest else some (natOfDigits ds)
      else camSearch rest
    | _ => camSearch rest

/-- Model of the search for regex `(\d\x7b3,\x7d)`: value of the first maximal digit
run of length at least 3. -/
def fileNumSearch : List Char → Option Nat
  | [] => none
  | c :: rest =>
    let ds := (c :: rest).takeWhile isDigitCh
    if 3 ≤ ds.length then some (natOfDigits ds) else fileNumSearch rest

/-- Model of `extract_file_info` (queue_manager.py:91-106): the
`(camera_number, file_number, path)` sort key of a path. -/
def extract_file_info (path : String) : Nat × Nat × String :=
  let filename := basename path
  let cam := (camSearch filename.data).getD 999
  let num := (fileNumSearch filename.data).getD 999999
  (cam, num, path)

/-- Strict comparison of `(camera_number, file_number, path)` sort keys,
exactly the Python tuple `<` (strings compared by code point). -/
def keyLt (a b : Nat × Nat × String) : Bool :=
  decide (a.1 < b.1) ||
    (decide (a.1 = b.1) &&
      (decide (a.2.1 < b.2.1) ||
        (decide (a.2.1 = b.2.1) && charListLt a.2.2.data b.2.2.data)))

/-- Stable insertion into a list sorted by the strict order `lt`: the new
element goes after every element it is not strictly smaller than. -/
def stableInsert {γ : Type} (lt : γ → γ → Bool) (x : γ) : List γ → List γ
  | [] => [x]
  | y :: ys => if lt x y then x :: y :: ys else y :: stableInsert lt x ys

/-- Stable sort by the strict order `lt` (insertion sort); extensionally
equal to the stable Python `sorted` for a strict weak order. -/
def stableSort {γ : Type} (lt : γ → γ → Bool) (l : List γ) : List γ :=
  l.foldl (fun acc x => stableInsert lt x acc) []

/-- The filtering loop of `add_files` (queue_manager.py:66-86): resolve
one path. `some q` means path `q` is considered for the batch, `none`
means the path is skipped (`continue`). A missing file whose path
contains `/01 VIDEO/` is retried under `/01 VIDEO.old/`; if that variant
exists it replaces the path, otherwise the original path falls through
un-skipped. Only a missing file without the `/01 VIDEO/` segment is
skipped. -/
def resolvePath (isFile : String → Bool) (path : String) : Option String :=
  if isFile path then some path
  else if strContains path "/01 VIDEO/" then
    let newPath := strReplace path "/01 VIDEO/" "/01 VIDEO.old/"
    if isFile newPath then some newPath else some path
  else none

/-- The accumulation loop of `add_files` (queue_manager.py:66-86):
returns `files_to_add` (in input order) and `added_count`. Note the
duplicate check `path not in self.queue` tests only the queue as it was
when `add_files` was entered — the batch being built is not consulted. -/
def addFilesLoop (isFile : String → Bool) (queue : List String) :
    List String → List String × Nat
  | [] => ([], 0)
  | p :: rest =>
    let r := addFilesLoop isFile queue rest
    match resolvePath isFile p with
    | none => r
    | some q => if q ∈ queue then r else (q :: r.1, r.2 + 1)

/-- Model of `QueueManager.add_files` (queue_manager.py:52-118): filter and
resolve the incoming paths, sort the accepted batch by
`(camera_number, file_number, path)`, append it to `self.queue` and mark
each entry `PENDING`. Returns the new state and `added_count`. -/
def add_files (isFile : String → Bool) (s : FQState) (file_paths : List String) :
    FQState × Nat :=
  let batch := addFilesLoop isFile s.queue file_paths
  let sortedFiles := stableSort keyLt (batch.1.map extract_file_info)
  let newPaths := sortedFiles.map (fun t => t.2.2)
  ({ queue := s.queue ++ newPaths,
     status := newPaths.foldl (fun st p => assocSet st p QueueStatus.pending) s.status },
   batch.2)

/-! ## Properties of the stable sort and of the sort key -/

theorem mem_stableInsert {γ : Type} (lt : γ → γ → Bool) (x : γ) (l : List γ) (y : γ) :
    y ∈ stableInsert lt x l ↔ y = x ∨ y ∈ l := by
  induction l with
  | nil => simp [stableInsert]
  | cons z zs ih =>
    by_cases h : lt x z = true
    · simp [stableInsert, h]
    · simp only [stableInsert, h, Bool.false_eq_true, if_false, List.mem_cons, ih]
      tauto

theorem stableInsert_perm {γ : Type} (lt : γ → γ → Bool) (x : γ) (l : List γ) :
    (stableInsert lt x l).Perm (x :: l) := by
  induction l with
  | nil => simp [stableInsert]
  | cons z zs ih =>
    by_cases h : lt x z = true
    · simp [stableInsert, h]
    · simp only [stableInsert, h, Bool.false_eq_true, if_false]
      exact (ih.cons z).trans (List.Perm.swap x z zs)

theorem stableSort_append_perm {γ : Type} (lt : γ → γ → Bool) :
    ∀ (l acc : List γ),
      (l.foldl (fun acc x => stableInsert lt x acc) acc).Perm (acc ++ l)
  | [], acc => by simp
  | x :: xs, acc => by
    simp only [List.foldl_cons]
    refine (stableSort_append_perm lt xs (stableInsert lt x acc)).trans ?_
    refine (List.Perm.append_right xs (stableInsert_perm lt x acc)).trans ?_
    exact List.perm_middle.symm

theorem stableSort_perm {γ : Type} (lt : γ → γ → Bool) (l : List γ) :
    (stableSort lt l).Perm l := by
  simpa [stableSort] using stableSort_append_perm lt l []

theorem stableInsert_pairwise {γ : Type} (lt : γ → γ → Bool)
    (hasymm : ∀ a b, lt a b = true → lt b a = false)
    (htrans : ∀ a b c, lt a b = true → lt b c = true → lt a c = true)
    (x : γ) (l : List γ) (hl : l.Pairwise (fun a b => lt b a = false)) :
    (stableInsert lt x l).Pairwise (fun a b => lt b a = false) := by
  induction l with
  | nil => simp [stableInsert]
  | cons y ys ih =>
    rcases List.pairwise_cons.mp hl with ⟨hy, hys⟩
    by_cases h : lt x y = true
    · simp only [stableInsert, h, if_true]
      refine List.pairwise_cons.mpr ⟨?_, hl⟩
      intro z hz
      rcases List.mem_cons.mp hz with rfl | hz'
      · exact hasymm x z h
      · by_contra hzx
        have hzx' : lt z x = true := by
          cases hv : lt z x
          · exact absurd hv hzx
          · rfl
        have : lt z y = true := htrans z x y hzx' h
        rw [hy z hz'] at this
        exact Bool.false_ne_true this
    · have h' : lt x y = false := by
        cases hv : lt x y
        · rfl
        · exact absurd hv h
      simp only [stableInsert, h, Bool.false_eq_true, if_false]
      refine List.pairwise_cons.mpr ⟨?_, ih hys⟩
      intro z hz
      rcases (mem_stableInsert lt x ys z).mp hz with rfl | hz'
      · exact h'
      · exact hy z hz'

theorem stableSort_pairwise {γ : Type} (lt : γ → γ → Bool)
    (hasymm : ∀ a b, lt a b = true → lt b a = false)
    (htrans : ∀ a b c, lt a b = true → lt b c = true → lt a c = true)
    (l : List γ) :
    (stableSort lt l).Pairwise (fun a b => lt b a = false) := by
  suffices h : ∀ (l acc : List γ), acc.Pairwise (fun a b => lt b a = false) →
      (l.foldl (fun acc x => stableInsert lt x acc) acc).Pairwise
        (fun a b => lt b a = false) by
    exact h l [] List.Pairwise.nil
  intro l
  induction l with
  | nil => intro acc hacc; simpa using hacc
  | cons x xs ih =>
    intro acc hacc
    simp only [List.foldl_cons]
    exact ih _ (stableInsert_pairwise lt hasymm htrans x acc hacc)

theorem charListLt_asymm : ∀ (a b : List Char),
    charListLt a b = true → charListLt b a = false
  | [], [] => by simp [charListLt]
  | [], _ :: _ => by simp [charListLt]
  | _ :: _, [] => by simp [charListLt]
  | a :: as, b :: bs => by
    simp only [charListLt, Bool.or_eq_true, Bool.and_eq_true, decide_eq_true_eq,
      Bool.or_eq_false_iff, Bool.and_eq_false_iff, decide_eq_false_iff_not]
    rintro (hlt | ⟨heq, hrec⟩)
    · exact ⟨by omega, Or.inl (by omega)⟩
    · exact ⟨by omega, Or.inr (charListLt_asymm as bs hrec)⟩

theorem charListLt_trans : ∀ (a b c : List Char),
    charListLt a b = true → charListLt b c = true → charListLt a c = true
  | [], [], _ => by simp [charListLt]
  | [], _ :: _, [] => by simp [charListLt]
  | [], _ :: _, _ :: _ => by simp [charListLt]
  | _ :: _, [], _ => by simp [charListLt]
  | _ :: _, _ :: _, [] => by simp [charListLt]
  | a :: as, b :: bs, c :: cs => by
    simp only [charListLt, Bool.or_eq_true, Bool.and_eq_true, decide_eq_true_eq]
    rintro (hab | ⟨hab, hrec⟩) (hbc | ⟨hbc, hrec'⟩)
    · exact Or.inl (by omega)
    · exact Or.inl (by omega)
    · exact Or.inl (by omega)
    · exact Or.inr ⟨by omega, charListLt_trans as bs cs hrec hrec'⟩

theorem keyLt_asymm (a b : Nat × Nat × String) :
    keyLt a b = true → keyLt b a = false := by
  simp only [keyLt, Bool.or_eq_true, Bool.and_eq_true, decide_eq_true_eq,
    Bool.or_eq_false_iff, Bool.and_eq_false_iff, decide_eq_false_iff_not]
  rintro (h | ⟨h1, (h2 | ⟨h2, h3⟩)⟩)
  · exact ⟨by omega, Or.inl (by omega)⟩
  · exact ⟨by omega, Or.inr ⟨by omega, Or.inl (by omega)⟩⟩
  · exact ⟨by omega, Or.inr ⟨by omega,
      Or.inr (charListLt_asymm a.2.2.data b.2.2.data h3)⟩⟩

theorem keyLt_trans (a b c : Nat × Nat × String) :
    keyLt a b = true → keyLt b c = true → keyLt a c = true := by
  simp only [keyLt, Bool.or_eq_true, Bool.and_eq_true, decide_eq_true_eq]
  rintro (hab | ⟨hab, (hab2 | ⟨hab2, hab3⟩)⟩) (hbc | ⟨hbc, (hbc2 | ⟨hbc2, hbc3⟩)⟩) <;>
    first
      | exact Or.inl (by omega)
      | exact Or.inr ⟨by omega, Or.inl (by omega)⟩
      | exact Or.inr ⟨by omega, Or.inr ⟨by omega,
          charListLt_trans _ _ _ hab3 hbc3⟩⟩

/-- The (cameraNumber, fileNumber) lexicographic order in which the spec
says each newly accepted batch is enqueued. -/
def specKeyLe (a b : Nat × Nat) : Prop :=
  a.1 < b.1 ∨ (a.1 = b.1 ∧ a.2 ≤ b.2)

theorem keyLt_not_rev (a b : Nat × Nat × String) (h : keyLt b a = false) :
    specKeyLe (a.1, a.2.1) (b.1, b.2.1) := by
  simp only [keyLt, Bool.or_eq_false_iff, Bool.and_eq_false_iff,
    decide_eq_false_iff_not] at h
  rcases h with ⟨h1, h2⟩
  rcases Nat.lt_or_ge a.1 b.1 with hlt | hge
  · exact Or.inl hlt
  · have heq : a.1 = b.1 := by omega
    refine Or.inr ⟨heq, ?_⟩
    rcases h2 with h2 | ⟨h3, _⟩
    · omega
    · omega

/-! ## Structure of the batch accepted by `add_files` -/

theorem extract_file_info_path (p : String) : (extract_file_info p).2.2 = p := rfl

theorem addFilesLoop_count (f : String → Bool) (q : List String) :
    ∀ paths : List String, (addFilesLoop f q paths).2 = (addFilesLoop f q paths).1.length
  | [] => rfl
  | p :: rest => by
    simp only [addFilesLoop]
    cases hr : resolvePath f p with
    | none => exact addFilesLoop_count f q rest
    | some x =>
      by_cases hm : x ∈ q
      · simp only [hm, if_true]
        exact addFilesLoop_count f q rest
      · simp only [hm, if_false, List.length_cons]
        rw [addFilesLoop_count f q rest]

theorem resolvePath_spec (f : String → Bool) (p x : String)
    (h : resolvePath f p = some x) :
    f x = true ∨ strContains x "/01 VIDEO/" = true := by
  unfold resolvePath at h
  split at h
  · next hf =>
    cases h
    exact Or.inl hf
  · next =>
    split at h
    · next hc =>
      simp only [] at h
      split at h
      · next hf2 =>
        cases h
        exact Or.inl hf2
      · next =>
        cases h
        exact Or.inr hc
    · next => cases h

theorem addFilesLoop_mem (f : String → Bool) (q : List String) :
    ∀ (paths : List String) (x : String), x ∈ (addFilesLoop f q paths).1 →
      x ∉ q ∧ (f x = true ∨ strContains x "/01 VIDEO/" = true)
  | [], x => by simp [addFilesLoop]
  | p :: rest, x => by
    simp only [addFilesLoop]
    cases hr : resolvePath f p with
    | none => exact addFilesLoop_mem f q rest x
    | some y =>
      by_cases hm : y ∈ q
      · simp only [hm, if_true]
        exact addFilesLoop_mem f q rest x
      · simp only [hm, if_false, List.mem_cons]
        rintro (rfl | hx)
        · exact ⟨hm, resolvePath_spec f p x hr⟩
        · exact addFilesLoop_mem f q rest x hx

/-- The list of paths `add_files` actually appends to the queue: the
accepted batch, sorted by the `(camera_number, file_number, path)` key. -/
def newBatch (f : String → Bool) (s : FQState) (paths : List String) : List String :=
  (stableSort keyLt ((addFilesLoop f s.queue paths).1.map extract_file_info)).map
    (fun t => t.2.2)

theorem add_files_queue_eq (f : String → Bool) (s : FQState) (paths : List String) :
    (add_files f s paths).1.queue = s.queue ++ newBatch f s paths := rfl

theorem add_files_count_eq (f : String → Bool) (s : FQState) (paths : List String) :
    (add_files f s paths).2 = (addFilesLoop f s.queue paths).2 := rfl

theorem newBatch_perm (f : String → Bool) (s : FQState) (paths : List String) :
    (newBatch f s paths).Perm (addFilesLoop f s.queue paths).1 := by
  have h := (stableSort_perm keyLt
    ((addFilesLoop f s.queue paths).1.map extract_file_info)).map
      (fun t : Nat × Nat × String => t.2.2)
  rw [List.map_map] at h
  have h2 : List.map ((fun t : Nat × Nat × String => t.2.2) ∘ extract_file_info)
      (addFilesLoop f s.queue paths).1 = (addFilesLoop f s.queue paths).1 := by
    have hfun : ((fun t : Nat × Nat × String => t.2.2) ∘ extract_file_info) = id :=
      funext fun p => rfl
    rw [hfun, List.map_id]
  rw [h2] at h
  exact h

theorem newBatch_sorted (f : String → Bool) (s : FQState) (paths : List String) :
    (newBatch f s paths).Pairwise (fun p q =>
      specKeyLe ((extract_file_info p).1, (extract_file_info p).2.1)
        ((extract_file_info q).1, (extract_file_info q).2.1)) := by
  have hs := stableSort_pairwise keyLt keyLt_asymm keyLt_trans
    ((addFilesLoop f s.queue paths).1.map extract_file_info)
  rw [newBatch, List.pairwise_map]
  refine hs.imp_of_mem ?_
  intro a b ha hb hab
  have hmem : ∀ t, t ∈ stableSort keyLt
      ((addFilesLoop f s.queue paths).1.map extract_file_info) →
      extract_file_info t.2.2 = t := by
    intro t ht
    have := (stableSort_perm keyLt _).mem_iff.mp ht
    rcases List.mem_map.mp this with ⟨p, _, rfl⟩
    rfl
  rw [hmem a ha, hmem b hb]
  exact keyLt_not_rev a b hab

/-! ## Claim theorems about `add_files` -/

/-- C3, counterexample. The claim says adding `[A, A, B, missing]` to an
empty queue (A and B existing, missing not) returns 2; `add_files` checks
duplicates only against the queue as it was when the call started, never
against the batch under construction, so the second `A` is accepted again
and the call returns 3, leaving the queue `[A, A, B]`. -/
theorem add_files_batch_dup_counterexample :
    ¬ ((add_files (fun p => p = "A" || p = "B") ⟨[], []⟩
        ["A", "A", "B", "missing"]).2 = 2 ∧
       (add_files (fun p => p = "A" || p = "B") ⟨[], []⟩
        ["A", "A", "B", "missing"]).1.queue = ["A", "B"]) := by
  decide

/-- C3 (amended): the count returned by `add_files` equals the number of
paths actually enqueued; a path is enqueued only if it resolves (existing
as a file, or carrying the `/01 VIDEO/` fallback segment) and is not
already present in the queue as it was at the start of the call —
duplicates within the same batch are each enqueued and counted, so adding
`[A, A, B, missing]` to an empty queue returns 3 and leaves the jobs
`[A, A, B]`. -/
theorem add_files_count_spec :
    (∀ (f : String → Bool) (s : FQState) (paths : List String),
      ∃ l, (add_files f s paths).1.queue = s.queue ++ l ∧
        (add_files f s paths).2 = l.length ∧
        ∀ q ∈ l, q ∉ s.queue ∧ (f q = true ∨ strContains q "/01 VIDEO/" = true)) ∧
    add_files (fun p => p = "A" || p = "B") ⟨[], []⟩ ["A", "A", "B", "missing"]
      = (⟨["A", "A", "B"],
          [("A", QueueStatus.pending), ("B", QueueStatus.pending)]⟩, 3) := by
  constructor
  · intro f s paths
    refine ⟨newBatch f s paths, add_files_queue_eq f s paths, ?_, ?_⟩
    · rw [add_files_count_eq, addFilesLoop_count,
        (newBatch_perm f s paths).length_eq]
    · intro q hq
      exact addFilesLoop_mem f s.queue paths q
        ((newBatch_perm f s paths).mem_iff.mp hq)
  · decide

/-- C9: every batch newly accepted by `add_files` is appended to the
queue (earlier entries untouched, in their old order) as a permutation of
the accepted paths sorted ascending by the `(camera_number, file_number)`
key; in particular the four CAM example files are enqueued in the order
CAM1_001, CAM1_002, CAM2_002, CAM2_005. -/
theorem add_files_sorted_batch :
    (∀ (f : String → Bool) (s : FQState) (paths : List String),
      ∃ l, (add_files f s paths).1.queue = s.queue ++ l ∧
        l.Perm (addFilesLoop f s.queue paths).1 ∧
        l.Pairwise (fun p q =>
          specKeyLe ((extract_file_info p).1, (extract_file_info p).2.1)
            ((extract_file_info q).1, (extract_file_info q).2.1))) ∧
    (add_files (fun _ => true) ⟨[], []⟩
      ["CAM2_005.mov", "CAM1_002.mov", "CAM1_001.mov", "CAM2_002.mov"]).1.queue
      = ["CAM1_001.mov", "CAM1_002.mov", "CAM2_002.mov", "CAM2_005.mov"] := by
  constructor
  · intro f s paths
    exact ⟨newBatch f s paths, add_files_queue_eq f s paths,
      newBatch_perm f s paths, newBatch_sorted f s paths⟩
  · decide

/-- C10: a missing path containing `/01 VIDEO/` is never dropped by
`add_files`: if the `/01 VIDEO.old/` variant exists it is enqueued in
place of the original, and if neither variant exists the original path is
still enqueued. -/
theorem add_files_video_fallback (f : String → Bool) (s : FQState) (p : String)
    (h1 : f p = false) (h2 : strContains p "/01 VIDEO/" = true)
    (h3 : p ∉ s.queue)
    (h4 : strReplace p "/01 VIDEO/" "/01 VIDEO.old/" ∉ s.queue) :
    (f (strReplace p "/01 VIDEO/" "/01 VIDEO.old/") = true →
      (add_files f s [p]).1.queue
          = s.queue ++ [strReplace p "/01 VIDEO/" "/01 VIDEO.old/"] ∧
        (add_files f s [p]).2 = 1) ∧
    (f (strReplace p "/01 VIDEO/" "/01 VIDEO.old/") = false →
      (add_files f s [p]).1.queue = s.queue ++ [p] ∧
        (add_files f s [p]).2 = 1) := by
  have hres : resolvePath f p
      = some (if f (strReplace p "/01 VIDEO/" "/01 VIDEO.old/")
          then strReplace p "/01 VIDEO/" "/01 VIDEO.old/" else p) := by
    unfold resolvePath
    rw [if_neg (by simp [h1]), if_pos h2]
    by_cases hf : f (strReplace p "/01 VIDEO/" "/01 VIDEO.old/") = true
    · rw [if_pos hf, if_pos hf]
    · rw [if_neg hf, if_neg hf]
  constructor
  · intro hex
    rw [hex] at hres
    simp only [if_true] at hres
    simp [add_files, addFilesLoop, hres, h4, newBatch, stableSort, stableInsert,
      extract_file_info_path]
  · intro hnex
    rw [hnex] at hres
    simp only [Bool.false_eq_true, if_false] at hres
    simp [add_files, addFilesLoop, hres, h3, newBatch, stableSort, stableInsert,
      extract_file_info_path]

/-- Closed instance of `add_files_video_fallback`: the missing path
`/x/01 VIDEO/a.mov` whose `.old` variant exists is enqueued as
`/x/01 VIDEO.old/a.mov`. -/
theorem add_files_video_fallback_witness :
    ((fun q => q = "/x/01 VIDEO.old/a.mov") "/x/01 VIDEO/a.mov" = false) ∧
    ((add_files (fun q => q = "/x/01 VIDEO.old/a.mov") ⟨[], []⟩
        ["/x/01 VIDEO/a.mov"]).1.queue = [] ++ ["/x/01 VIDEO.old/a.mov"] ∧
      (add_files (fun q => q = "/x/01 VIDEO.old/a.mov") ⟨[], []⟩
        ["/x/01 VIDEO/a.mov"]).2 = 1) := by
  refine ⟨by decide, ?_⟩
  have h := add_files_video_fallback (fun q => q = "/x/01 VIDEO.old/a.mov")
    ⟨[], []⟩ "/x/01 VIDEO/a.mov" (by decide) (by decide)
    (by simp) (by simp)
  have hsub : strReplace "/x/01 VIDEO/a.mov" "/01 VIDEO/" "/01 VIDEO.old/"
      = "/x/01 VIDEO.old/a.mov" := by decide
  have := h.1 (by rw [hsub]; decide)
  rwa [hsub] at this

/-! ## ProjectQueue (`core/project_queue_manager.py`)

Model of `ProjectQueueManager`. A project dictionary is modelled as an
`id` plus an opaque payload `α` (name, files, settings, metadata,
timestamps — the engine never inspects them); a per-project result is an
opaque `β`. Both are carried through JSON serialization unchanged, so
`save_state`/`load_state` keep them as they are. The `saved_at` timestamp
of the persisted document is ignored on load and omitted here.
-/

/-- The `ProjectStatus` enum of project_queue_manager.py:25-31. It has
exactly five members — there is no `VERIFYING` member. -/
inductive ProjectStatus
  | pending | processing | completed | failed | canceled
  deriving DecidableEq, Repr

/-- Serialized form of a status (the `.value` of the Python enum). -/
def ProjectStatus.value : ProjectStatus → String
  | .pending => "pending"
  | .processing => "processing"
  | .completed => "completed"
  | .failed => "failed"
  | .canceled => "canceled"

/-- Parsing a status string (the `ProjectStatus(status_str)` enum call);
`none` models the `ValueError` raised on an unknown string. -/
def ProjectStatus.ofValue (v : String) : Option ProjectStatus :=
  if v = "pending" then some .pending
  else if v = "processing" then some .processing
  else if v = "completed" then some .completed
  else if v = "failed" then some .failed
  else if v = "canceled" then some .canceled
  else none

/-- A project dictionary: its `id` and its remaining (opaque) payload. -/
structure PProject (α : Type) where
  id : String
  payload : α
  deriving DecidableEq, Repr

/-- The state of a `ProjectQueueManager` (project_queue_manager.py:50-66):
`self.projects`, `self.status`, `self.results`, `self.current_index`,
`self.is_processing`. The in-memory `_canceled` flag is not part of the
queue state (it is never persisted) and is passed to the worker-step
functions explicitly. -/
structure PQState (α β : Type) where
  projects : List (PProject α)
  status : List (String × ProjectStatus)
  results : List (String × β)
  current_index : Int
  is_processing : Bool
  deriving DecidableEq, Repr

/-- The id generated by `add_project` (project_queue_manager.py:96):
`f"project_{int(time.time())}_{len(self.projects)}"`; the current time is
an explicit parameter. -/
def mkProjectId (tnow count : Nat) : String :=
  "project_" ++ toString tnow ++ "_" ++ toString count

/-- Model of `ProjectQueueManager.add_project`
(project_queue_manager.py:80-119): generate an id, append the project,
set its status to `PENDING`, persist (a no-op on the model state), and
return the id. -/
def add_project {α β : Type} (s : PQState α β) (tnow : Nat) (payload : α) :
    PQState α β × String :=
  let pid := mkProjectId tnow s.projects.length
  ({ s with projects := s.projects ++ [⟨pid, payload⟩],
            status := assocSet s.status pid ProjectStatus.pending }, pid)

/-- The `for i, project in enumerate(self.projects)` search with `break`
at the first project whose `id` matches: index and project. -/
def findProject {α : Type} (pid : String) : List (PProject α) → Option (Nat × PProject α)
  | [] => none
  | p :: rest =>
    if p.id = pid then some (0, p)
    else (findProject pid rest).map (fun ip => (ip.1 + 1, ip.2))

/-- The removal loop of `remove_project`: drop the first project whose
`id` matches, or `none` if there is no match. -/
def removeFirstProject {α : Type} (pid : String) :
    List (PProject α) → Option (List (PProject α))
  | [] => none
  | p :: rest =>
    if p.id = pid then some rest
    else (removeFirstProject pid rest).map (fun l => p :: l)

/-- Model of `ProjectQueueManager.remove_project`
(project_queue_manager.py:139-169): remove the first project with the
given id together with its status and results entries and persist,
returning `true`; return `false` only when no project has that id. There
is no check against the currently-Processing project. -/
def remove_project {α β : Type} (s : PQState α β) (pid : String) :
    PQState α β × Bool :=
  match removeFirstProject pid s.projects with
  | none => (s, false)
  | some projects' =>
    ({ s with projects := projects',
              status := assocDel s.status pid,
              results := assocDel s.results pid }, true)

/-- Python `list.insert(i, x)` for `0 ≤ i` (an index at or beyond the end
appends). -/
def pyInsert {γ : Type} (x : γ) : List γ → Nat → List γ
  | l, 0 => x :: l
  | [], _ + 1 => [x]
  | y :: ys, n + 1 => y :: pyInsert x ys n

/-- Model of `ProjectQueueManager.reorder_project`
(project_queue_manager.py:171-219): find the project, validate the new
position, reject the currently-Processing project, otherwise pop and
re-insert it, and — only while processing — adjust `current_index` so it
still refers to the project it referred to before. -/
def reorder_project {α β : Type} (s : PQState α β) (pid : String)
    (newPos : Int) : PQState α β × Bool :=
  match findProject pid s.projects with
  | none => (s, false)
  | some ip =>
    if 0 ≤ newPos ∧ newPos < (s.projects.length : Int) then
      if s.is_processing = true ∧ s.current_index = (ip.1 : Int) ∧
          assocGet s.status pid = some ProjectStatus.processing then
        (s, false)
      else
        let l := s.projects.eraseIdx ip.1
        let projects' := pyInsert ip.2 l newPos.toNat
        let ci := s.current_index
        let ci' :=
          if s.is_processing = true then
            if (ip.1 : Int) = ci then newPos
            else if (ip.1 : Int) < ci ∧ newPos ≥ ci then ci - 1
            else if (ip.1 : Int) > ci ∧ newPos ≤ ci then ci + 1
            else ci
          else ci
        ({ s with projects := projects', current_index := ci' }, true)
    else (s, false)

/-- Model of `ProjectQueueManager.clear_queue`
(project_queue_manager.py:221-236): rejected (state untouched) while
processing; otherwise empty everything and reset `current_index`. -/
def clear_queue {α β : Type} (s : PQState α β) : PQState α β :=
  if s.is_processing = true then s
  else { s with projects := [], status := [], results := [], current_index := -1 }

/-- The persisted state document (project_queue_manager.py:300-307),
minus the ignored `saved_at` timestamp: statuses are stored as their
`.value` strings. -/
structure StateDoc (α β : Type) where
  projects : List (PProject α)
  status : List (String × String)
  results : List (String × β)
  current_index : Int
  is_processing : Bool
  deriving DecidableEq, Repr

/-- Model of `ProjectQueueManager.save_state`
(project_queue_manager.py:278-321): serialize the state (projects and
results pass through JSON unchanged, statuses become strings). -/
def save_state {α β : Type} (s : PQState α β) : StateDoc α β :=
  { projects := s.projects,
    status := s.status.map (fun e => (e.1, e.2.value)),
    results := s.results,
    current_index := s.current_index,
    is_processing := s.is_processing }

/-- The dict comprehension of `load_state` restoring statuses; `none`
models the `ValueError` on an unknown status string (caught by the outer
`except`, which makes `load_state` return `False`). -/
def parseStatus : List (String × String) → Option (List (String × ProjectStatus))
  | [] => some []
  | (k, v) :: rest =>
    match ProjectStatus.ofValue v, parseStatus rest with
    | some st, some tl => some ((k, st) :: tl)
    | _, _ => none

/-- The demotion loop of `load_state` (project_queue_manager.py:363-367):
every `PROCESSING` status becomes `PENDING`. -/
def demoteProcessing (st : List (String × ProjectStatus)) :
    List (String × ProjectStatus) :=
  st.map (fun e =>
    (e.1, if e.2 = ProjectStatus.processing then ProjectStatus.pending else e.2))

/-- Model of `ProjectQueueManager.load_state`
(project_queue_manager.py:323-374) applied to a saved document: restore
all fields; if the document says a run was in progress, reset
`is_processing` to `False` and demote every `PROCESSING` status to
`PENDING`. `none` models the load failing (unparsable status). -/
def load_state {α β : Type} (d : StateDoc α β) : Option (PQState α β) :=
  match parseStatus d.status with
  | none => none
  | some st =>
    if d.is_processing = true then
      some { projects := d.projects, status := demoteProcessing st,
             results := d.results, current_index := d.current_index,
             is_processing := false }
    else
      some { projects := d.projects, status := st, results := d.results,
             current_index := d.current_index, is_processing := d.is_processing }

/-- The `for ... else` search of `start_processing`
(project_queue_manager.py:404-413) for the first project whose status is
`PENDING` (with a truthy id). -/
def firstPendingIdx {α : Type} (status : List (String × ProjectStatus)) :
    List (PProject α) → Option Nat
  | [] => none
  | p :: rest =>
    if p.id ≠ "" ∧ assocGet status p.id = some ProjectStatus.pending then some 0
    else (firstPendingIdx status rest).map (fun i => i + 1)

/-- Model of `ProjectQueueManager.start_processing`
(project_queue_manager.py:376-430): rejected when already processing,
when the queue is empty, or when no project is `PENDING`; otherwise mark
the run active and point `current_index` at the first pending project
(the worker thread itself is modelled by the worker-step functions). -/
def start_processing {α β : Type} (s : PQState α β) : PQState α β × Bool :=
  if s.is_processing = true then (s, false)
  else if s.projects.isEmpty then (s, false)
  else
    match firstPendingIdx s.status s.projects with
    | none => (s, false)
    | some i =>
      ({ s with is_processing := true, current_index := (i : Int) }, true)

/-- One skip iteration of the `_process_queue` loop
(project_queue_manager.py:469-471): the project at `current_index` has a
truthy id and is not `PENDING`, so only `current_index` advances. -/
def workerSkip {α β : Type} (s : PQState α β) : Option (PQState α β) :=
  if s.is_processing = true ∧ 0 ≤ s.current_index ∧
      s.current_index < (s.projects.length : Int) then
    match s.projects.get? s.current_index.toNat with
    | none => none
    | some p =>
      if p.id ≠ "" ∧ assocGet s.status p.id ≠ some ProjectStatus.pending then
        some { s with current_index := s.current_index + 1 }
      else none
  else none

/-- The start of a processing iteration of the `_process_queue` loop
(project_queue_manager.py:473-478): the project at `current_index` is
taken up and marked `PROCESSING` (state persisted). -/
def workerBegin {α β : Type} (s : PQState α β) : Option (PQState α β) :=
  if s.is_processing = true ∧ 0 ≤ s.current_index ∧
      s.current_index < (s.projects.length : Int) then
    match s.projects.get? s.current_index.toNat with
    | none => none
    | some p =>
      if p.id = "" ∨ assocGet s.status p.id = some ProjectStatus.pending then
        some { s with status := assocSet s.status p.id ProjectStatus.processing }
      else none
  else none

/-- The end of a processing iteration of the `_process_queue` loop
(project_queue_manager.py:480-525): record the outcome of
`process_project_func` — `COMPLETED` on success, otherwise `CANCELED` if
the cancellation flag was observed and `FAILED` if not — store the result
and advance `current_index`. -/
def workerFinish {α β : Type} (s : PQState α β) (success canceledFlag : Bool)
    (res : β) : Option (PQState α β) :=
  if s.is_processing = true ∧ 0 ≤ s.current_index ∧
      s.current_index < (s.projects.length : Int) then
    match s.projects.get? s.current_index.toNat with
    | none => none
    | some p =>
      let st := if success then ProjectStatus.completed
        else if canceledFlag then ProjectStatus.canceled
        else ProjectStatus.failed
      some { s with status := assocSet s.status p.id st,
                    results := assocSet s.results p.id res,
                    current_index := s.current_index + 1 }
  else none

/-- The post-cancellation sweep of `_process_queue`
(project_queue_manager.py:533-542): every still-`PENDING` project from
`current_index` onwards becomes `CANCELED`. -/
def cancelRemainingStatus {α : Type} (status : List (String × ProjectStatus)) :
    List (PProject α) → List (String × ProjectStatus)
  | [] => status
  | p :: rest =>
    let status' :=
      if p.id ≠ "" ∧ assocGet status p.id = some ProjectStatus.pending then
        assocSet status p.id ProjectStatus.canceled
      else status
    cancelRemainingStatus status' rest

/-- The cancellation sweep applied to a state. -/
def cancelRemaining {α β : Type} (s : PQState α β) : PQState α β :=
  { s with status :=
      cancelRemainingStatus s.status (s.projects.drop s.current_index.toNat) }

/-- The `finally` clause of `_process_queue`
(project_queue_manager.py:548-555): the run ends, `is_processing` drops
to `False` (and the state is persisted). -/
def endRun {α β : Type} (s : PQState α β) : PQState α β :=
  { s with is_processing := false }

/-- Queue states reachable through the public operations of
`ProjectQueueManager` together with the worker-loop transitions of
`_process_queue`. The `endStep` constructor carries the fact that the
worker loop can only exit at its `while` test, where every project taken
up in an earlier iteration has already received a terminal status (each
iteration that marks a project `PROCESSING` unconditionally overwrites
that status before the iteration ends, and every exception inside the
iteration is caught). -/
inductive Reachable {α β : Type} : PQState α β → Prop
  | init : Reachable ⟨[], [], [], -1, false⟩
  | add (s : PQState α β) (tnow : Nat) (payload : α) :
      Reachable s → Reachable (add_project s tnow payload).1
  | remove (s : PQState α β) (pid : String) :
      Reachable s → Reachable (remove_project s pid).1
  | reorder (s : PQState α β) (pid : String) (newPos : Int) :
      Reachable s → Reachable (reorder_project s pid newPos).1
  | clear (s : PQState α β) : Reachable s → Reachable (clear_queue s)
  | ofLoad (s s' : PQState α β) :
      Reachable s → load_state (save_state s) = some s' → Reachable s'
  | start (s : PQState α β) : Reachable s → Reachable (start_processing s).1
  | skipStep (s s' : PQState α β) :
      Reachable s → workerSkip s = some s' → Reachable s'
  | beginStep (s s' : PQState α β) :
      Reachable s → workerBegin s = some s' → Reachable s'
  | finishStep (s s' : PQState α β) (success canceledFlag : Bool) (res : β) :
      Reachable s → workerFinish s success canceledFlag res = some s' →
      Reachable s'
  | cancelRem (s : PQState α β) :
      Reachable s → s.is_processing = true → Reachable (cancelRemaining s)
  | endStep (s : PQState α β) :
      Reachable s → s.is_processing = true →
      (∀ e ∈ s.status, e.2 ≠ ProjectStatus.processing) → Reachable (endRun s)

/-! ## Association-list and status lemmas -/

theorem mem_assocSet {γ : Type} (k : String) (v : γ) :
    ∀ (l : List (String × γ)) (e : String × γ),
      e ∈ assocSet l k v → e.2 = v ∨ e ∈ l
  | [], e => by
    intro he
    simp only [assocSet, List.mem_singleton] at he
    exact Or.inl (by rw [he])
  | (k', v') :: rest, e => by
    intro he
    simp only [assocSet] at he
    by_cases h : k' = k
    · rw [if_pos h] at he
      rcases List.mem_cons.mp he with rfl | hrest
      · exact Or.inl rfl
      · exact Or.inr (List.mem_cons_of_mem _ hrest)
    · rw [if_neg h] at he
      rcases List.mem_cons.mp he with rfl | hrest
      · exact Or.inr (List.mem_cons_self _ _)
      · rcases mem_assocSet k v rest e hrest with h1 | h2
        · exact Or.inl h1
        · exact Or.inr (List.mem_cons_of_mem _ h2)

theorem mem_assocDel {γ : Type} (k : String) :
    ∀ (l : List (String × γ)) (e : String × γ), e ∈ assocDel l k → e ∈ l
  | [], e => by simp [assocDel]
  | (k', v') :: rest, e => by
    intro he
    simp only [assocDel] at he
    by_cases h : k' = k
    · rw [if_pos h] at he
      exact List.mem_cons_of_mem _ he
    · rw [if_neg h] at he
      rcases List.mem_cons.mp he with rfl | hrest
      · exact List.mem_cons_self _ _
      · exact List.mem_cons_of_mem _ (mem_assocDel k rest e hrest)

theorem ofValue_value (st : ProjectStatus) :
    ProjectStatus.ofValue st.value = some st := by
  cases st <;> rfl

theorem parseStatus_roundtrip : ∀ l : List (String × ProjectStatus),
    parseStatus (l.map (fun e => (e.1, e.2.value))) = some l
  | [] => rfl
  | (k, v) :: rest => by
    simp only [List.map_cons, parseStatus, ofValue_value, parseStatus_roundtrip rest]

theorem demote_ne_processing (l : List (String × ProjectStatus)) :
    ∀ e ∈ demoteProcessing l, e.2 ≠ ProjectStatus.processing := by
  intro e he
  simp only [demoteProcessing, List.mem_map] at he
  obtain ⟨x, _, rfl⟩ := he
  by_cases h : x.2 = ProjectStatus.processing <;> simp [h]

theorem demote_id (l : List (String × ProjectStatus))
    (h : ∀ e ∈ l, e.2 ≠ ProjectStatus.processing) : demoteProcessing l = l := by
  induction l with
  | nil => rfl
  | cons p rest ih =>
    simp only [demoteProcessing, List.map_cons]
    rw [if_neg (h p (List.mem_cons_self p rest))]
    have hrest := ih (fun e he => h e (List.mem_cons_of_mem _ he))
    simp only [demoteProcessing] at hrest
    rw [hrest]

/-! ## Structural facts about the queue operations -/

theorem add_project_spec {α β : Type} (s : PQState α β) (tnow : Nat) (payload : α) :
    (add_project s tnow payload).1.is_processing = s.is_processing ∧
    ∀ e ∈ (add_project s tnow payload).1.status,
      e.2 = ProjectStatus.pending ∨ e ∈ s.status := by
  refine ⟨rfl, ?_⟩
  intro e he
  exact mem_assocSet _ _ _ e he

theorem remove_project_spec {α β : Type} (s : PQState α β) (pid : String) :
    (remove_project s pid).1.is_processing = s.is_processing ∧
    ∀ e ∈ (remove_project s pid).1.status, e ∈ s.status := by
  unfold remove_project
  cases removeFirstProject pid s.projects with
  | none => exact ⟨rfl, fun e he => he⟩
  | some l' => exact ⟨rfl, fun e he => mem_assocDel _ _ e he⟩

theorem reorder_project_frame {α β : Type} (s : PQState α β) (pid : String)
    (newPos : Int) :
    (reorder_project s pid newPos).1.status = s.status ∧
    (reorder_project s pid newPos).1.results = s.results ∧
    (reorder_project s pid newPos).1.is_processing = s.is_processing := by
  unfold reorder_project
  cases findProject pid s.projects with
  | none => exact ⟨rfl, rfl, rfl⟩
  | some ip =>
    dsimp only
    split
    · split
      · exact ⟨rfl, rfl, rfl⟩
      · exact ⟨rfl, rfl, rfl⟩
    · exact ⟨rfl, rfl, rfl⟩

theorem start_processing_spec {α β : Type} (s : PQState α β) :
    (start_processing s).1.status = s.status ∧
    ((start_processing s).1 = s ∨ (start_processing s).1.is_processing = true) := by
  unfold start_processing
  split
  · exact ⟨rfl, Or.inl rfl⟩
  · split
    · exact ⟨rfl, Or.inl rfl⟩
    · cases firstPendingIdx s.status s.projects with
      | none => exact ⟨rfl, Or.inl rfl⟩
      | some i => exact ⟨rfl, Or.inr rfl⟩

theorem workerSkip_spec {α β : Type} (s s' : PQState α β)
    (h : workerSkip s = some s') :
    s'.is_processing = true ∧ s'.status = s.status ∧
    s'.current_index = s.current_index + 1 := by
  unfold workerSkip at h
  by_cases hg : s.is_processing = true ∧ 0 ≤ s.current_index ∧
      s.current_index < (s.projects.length : Int)
  · rw [if_pos hg] at h
    cases hget : s.projects.get? s.current_index.toNat with
    | none => rw [hget] at h; cases h
    | some p =>
      rw [hget] at h
      dsimp only at h
      by_cases hc : p.id ≠ "" ∧ assocGet s.status p.id ≠ some ProjectStatus.pending
      · rw [if_pos hc] at h
        cases h
        exact ⟨hg.1, rfl, rfl⟩
      · rw [if_neg hc] at h
        cases h
  · rw [if_neg hg] at h
    cases h

theorem workerBegin_spec {α β : Type} (s s' : PQState α β)
    (h : workerBegin s = some s') :
    s'.is_processing = true ∧ s'.current_index = s.current_index := by
  unfold workerBegin at h
  by_cases hg : s.is_processing = true ∧ 0 ≤ s.current_index ∧
      s.current_index < (s.projects.length : Int)
  · rw [if_pos hg] at h
    cases hget : s.projects.get? s.current_index.toNat with
    | none => rw [hget] at h; cases h
    | some p =>
      rw [hget] at h
      dsimp only at h
      by_cases hc : p.id = "" ∨ assocGet s.status p.id = some ProjectStatus.pending
      · rw [if_pos hc] at h
        cases h
        exact ⟨hg.1, rfl⟩
      · rw [if_neg hc] at h
        cases h
  · rw [if_neg hg] at h
    cases h

theorem workerFinish_spec {α β : Type} (s s' : PQState α β)
    (success canceledFlag : Bool) (res : β)
    (h : workerFinish s success canceledFlag res = some s') :
    s'.is_processing = true ∧ s'.current_index = s.current_index + 1 := by
  unfold workerFinish at h
  by_cases hg : s.is_processing = true ∧ 0 ≤ s.current_index ∧
      s.current_index < (s.projects.length : Int)
  · rw [if_pos hg] at h
    cases hget : s.projects.get? s.current_index.toNat with
    | none => rw [hget] at h; cases h
    | some p =>
      rw [hget] at h
      dsimp only at h
      cases h
      exact ⟨hg.1, rfl⟩
  · rw [if_neg hg] at h
    cases h

/-! ## The no-stale-`PROCESSING` invariant and the save/load roundtrip -/

/-- On every reachable state whose run flag is off, no status entry is
`PROCESSING` (the worker loop never leaves a project `PROCESSING` behind
when it exits). -/
theorem reachable_no_processing {α β : Type} {s : PQState α β}
    (h : Reachable s) :
    s.is_processing = false → ∀ e ∈ s.status, e.2 ≠ ProjectStatus.processing := by
  induction h with
  | init => intro _ e he; simp at he
  | add s tnow payload _ ih =>
    intro hnp e he
    rcases (add_project_spec s tnow payload).2 e he with h1 | h2
    · rw [h1]; intro hc; cases hc
    · exact ih ((add_project_spec s tnow payload).1 ▸ hnp) e h2
  | remove s pid _ ih =>
    intro hnp e he
    exact ih ((remove_project_spec s pid).1 ▸ hnp) e
      ((remove_project_spec s pid).2 e he)
  | reorder s pid newPos _ ih =>
    intro hnp e he
    rcases reorder_project_frame s pid newPos with ⟨h1, _, h3⟩
    exact ih (h3 ▸ hnp) e (h1 ▸ he)
  | clear s _ ih =>
    intro hnp e he
    unfold clear_queue at hnp he
    by_cases hp : s.is_processing = true
    · rw [if_pos hp] at hnp he
      exact ih hnp e he
    · rw [if_neg hp] at he
      simp at he
  | ofLoad s s' _ hload ih =>
    intro _ e he
    unfold load_state save_state at hload
    rw [parseStatus_roundtrip] at hload
    dsimp only at hload
    split at hload
    · next hp =>
      cases hload
      exact demote_ne_processing s.status e he
    · next hp =>
      cases hload
      have hnp : s.is_processing = false := by
        cases hv : s.is_processing
        · rfl
        · exact absurd hv hp
      exact ih hnp e he
  | start s _ ih =>
    intro hnp e he
    rcases (start_processing_spec s).2 with heq | hp
    · rw [heq] at hnp he
      exact ih hnp e he
    · rw [hp] at hnp
      cases hnp
  | skipStep s s' _ hstep ih =>
    intro hnp _ _
    rw [(workerSkip_spec s s' hstep).1] at hnp
    cases hnp
  | beginStep s s' _ hstep ih =>
    intro hnp _ _
    rw [(workerBegin_spec s s' hstep).1] at hnp
    cases hnp
  | finishStep s s' success canceledFlag res _ hstep ih =>
    intro hnp _ _
    rw [(workerFinish_spec s s' success canceledFlag res hstep).1] at hnp
    cases hnp
  | cancelRem s _ hp ih =>
    intro hnp _ _
    rw [show (cancelRemaining s).is_processing = s.is_processing from rfl, hp] at hnp
    cases hnp
  | endStep s _ hp hterm ih =>
    intro _ e he
    exact hterm e he

/-- C5: for every queue state reachable through the public operations,
`save_state` followed by `load_state` on a fresh manager reproduces the
projects list and the results map identically, reproduces every status
except that `PROCESSING` becomes `PENDING`, and leaves `is_processing`
off. (On reachable states a `PROCESSING` status can only coexist with an
active run flag, so the flag-guarded demotion of `load_state` equals an
unconditional demotion.) -/
theorem queue_save_load_roundtrip {α β : Type} (s : PQState α β)
    (h : Reachable s) :
    load_state (save_state s) = some
      { projects := s.projects, status := demoteProcessing s.status,
        results := s.results, current_index := s.current_index,
        is_processing := false } := by
  unfold load_state save_state
  dsimp only
  rw [parseStatus_roundtrip]
  dsimp only
  by_cases hp : s.is_processing = true
  · rw [if_pos hp]
  · have hnp : s.is_processing = false := by
      cases hv : s.is_processing
      · rfl
      · exact absurd hv hp
    rw [if_neg hp, demote_id s.status (reachable_no_processing h hnp), hnp]

/-- Closed instance of `queue_save_load_roundtrip` at the reachable
initial state. -/
theorem queue_save_load_roundtrip_witness :
    load_state (save_state (⟨[], [], [], -1, false⟩ : PQState Unit Unit))
      = some ⟨[], [], [], -1, false⟩ :=
  queue_save_load_roundtrip _ Reachable.init

/-! ## C4: remove/reorder of the currently-Processing project -/

/-- A concrete queue state whose only project `p1` is the
currently-Processing one. -/
def c4state : PQState Unit Unit :=
  { projects := [⟨"p1", ()⟩], status := [("p1", ProjectStatus.processing)],
    results := [], current_index := 0, is_processing := true }

/-- C4, counterexample: `remove_project` carries no
currently-Processing check at all, so removing the project that is being
processed succeeds (returns `true`) and mutates the state, where the
claim requires `false` and no change. -/
theorem remove_processing_counterexample :
    ¬ ((remove_project c4state "p1").2 = false ∧
       (remove_project c4state "p1").1 = c4state) := by
  decide

theorem findProject_get {α : Type} (pid : String) :
    ∀ (l : List (PProject α)) (i : Nat) (p : PProject α),
      findProject pid l = some (i, p) → l.get? i = some p
  | [], i, p => by simp [findProject]
  | q :: rest, i, p => by
    intro h
    simp only [findProject] at h
    by_cases hq : q.id = pid
    · rw [if_pos hq] at h
      cases h
      rfl
    · rw [if_neg hq] at h
      cases hr : findProject pid rest with
      | none => rw [hr] at h; cases h
      | some ip =>
        rw [hr] at h
        cases h
        exact findProject_get pid rest ip.1 ip.2 (by rw [hr])

theorem removeFirst_eq_eraseIdx {α : Type} (pid : String) :
    ∀ (l : List (PProject α)) (i : Nat) (p : PProject α),
      findProject pid l = some (i, p) →
      removeFirstProject pid l = some (l.eraseIdx i)
  | [], i, p => by simp [findProject]
  | q :: rest, i, p => by
    intro h
    simp only [findProject, removeFirstProject] at h ⊢
    by_cases hq : q.id = pid
    · rw [if_pos hq] at h ⊢
      cases h
      rfl
    · rw [if_neg hq] at h ⊢
      cases hr : findProject pid rest with
      | none => rw [hr] at h; cases h
      | some ip =>
        rw [hr] at h
        cases h
        rw [removeFirst_eq_eraseIdx pid rest ip.1 ip.2 (by rw [hr])]
        rfl

/-- C4 (amended): `reorder_project` on the currently-Processing project
is rejected — it returns `false` and leaves the state unchanged — for
every requested position; `remove_project` on that same project is not
rejected: it returns `true` and removes the project together with its
status and results entries. -/
theorem processing_reorder_rejected_remove_not {α β : Type}
    (s : PQState α β) (pid : String) (i : Nat) (p : PProject α)
    (hproc : s.is_processing = true)
    (hfind : findProject pid s.projects = some (i, p))
    (hci : s.current_index = (i : Int))
    (hstat : assocGet s.status pid = some ProjectStatus.processing) :
    (∀ newPos : Int, reorder_project s pid newPos = (s, false)) ∧
    remove_project s pid =
      ({ s with projects := s.projects.eraseIdx i,
                status := assocDel s.status pid,
                results := assocDel s.results pid }, true) := by
  constructor
  · intro newPos
    unfold reorder_project
    rw [hfind]
    dsimp only
    by_cases hr : 0 ≤ newPos ∧ newPos < (s.projects.length : Int)
    · rw [if_pos hr, if_pos ⟨hproc, hci, hstat⟩]
    · rw [if_neg hr]
  · unfold remove_project
    rw [removeFirst_eq_eraseIdx pid s.projects i p hfind]

/-- Closed instance of `processing_reorder_rejected_remove_not` at
`c4state`. -/
theorem processing_reorder_rejected_remove_not_witness :
    (c4state.is_processing = true ∧
      findProject "p1" c4state.projects = some (0, ⟨"p1", ()⟩) ∧
      c4state.current_index = ((0 : Nat) : Int) ∧
      assocGet c4state.status "p1" = some ProjectStatus.processing) ∧
    ((∀ newPos : Int, reorder_project c4state "p1" newPos = (c4state, false)) ∧
      remove_project c4state "p1"
        = (⟨[], [], [], 0, true⟩, true)) := by
  refine ⟨⟨rfl, by decide, by decide, by decide⟩, ?_⟩
  have h := processing_reorder_rejected_remove_not c4state "p1" 0 ⟨"p1", ()⟩
    rfl (by decide) (by decide) (by decide)
  exact ⟨h.1, h.2.trans (by decide)⟩

/-! ## C8: behaviour of `current_index` during a run -/

/-- Python list indexing at an `int` position, for the active pointer
(negative positions out of model; a run keeps the pointer nonnegative). -/
def getAtInt {γ : Type} (l : List γ) (i : Int) : Option γ :=
  if 0 ≤ i then l.get? i.toNat else none

theorem pyInsert_zero {γ : Type} (x : γ) (l : List γ) : pyInsert x l 0 = x :: l := by
  cases l <;> rfl

theorem length_pyInsert {γ : Type} (x : γ) :
    ∀ (l : List γ) (k : Nat), (pyInsert x l k).length = l.length + 1
  | l, 0 => by rw [pyInsert_zero]; rfl
  | [], _ + 1 => rfl
  | y :: ys, n + 1 => by
    simp only [pyInsert, List.length_cons, length_pyInsert x ys n]

theorem get?_pyInsert_lt {γ : Type} (x : γ) :
    ∀ (l : List γ) (k j : Nat), j < k → k ≤ l.length →
      (pyInsert x l k).get? j = l.get? j
  | _, 0, j => by intro h _; exact absurd h (Nat.not_lt_zero j)
  | [], n + 1, j => by intro _ h; simp at h
  | y :: ys, n + 1, 0 => by intro _ _; rfl
  | y :: ys, n + 1, j + 1 => by
    intro h1 h2
    simp only [pyInsert, List.get?_cons_succ]
    exact get?_pyInsert_lt x ys n j (by omega) (by simpa using h2)

theorem get?_pyInsert_self {γ : Type} (x : γ) :
    ∀ (l : List γ) (k : Nat), k ≤ l.length → (pyInsert x l k).get? k = some x
  | l, 0 => by intro _; rw [pyInsert_zero]; rfl
  | [], n + 1 => by intro h; simp at h
  | y :: ys, n + 1 => by
    intro h
    simp only [pyInsert, List.get?_cons_succ]
    exact get?_pyInsert_self x ys n (by simpa using h)

theorem get?_pyInsert_gt {γ : Type} (x : γ) :
    ∀ (l : List γ) (k j : Nat), k < j → k ≤ l.length →
      (pyInsert x l k).get? j = l.get? (j - 1)
  | l, 0, j => by
    intro h _
    obtain ⟨jj, rfl⟩ : ∃ jj, j = jj + 1 := ⟨j - 1, by omega⟩
    rw [pyInsert_zero]
    simp
  | [], n + 1, j => by intro _ h; simp at h
  | y :: ys, n + 1, j => by
    intro h1 h2
    obtain ⟨jj, rfl⟩ : ∃ jj, j = jj + 1 := ⟨j - 1, by omega⟩
    simp only [pyInsert, List.get?_cons_succ]
    rw [get?_pyInsert_gt x ys n jj (by omega) (by simpa using h2)]
    obtain ⟨jm, rfl⟩ : ∃ jm, jj = jm + 1 := ⟨jj - 1, by omega⟩
    simp

theorem get?_eraseIdx_lt {γ : Type} :
    ∀ (l : List γ) (i j : Nat), j < i → (l.eraseIdx i).get? j = l.get? j
  | [], _, _ => by intro _; rfl
  | _ :: _, 0, j => by intro h; exact absurd h (Nat.not_lt_zero j)
  | y :: ys, i + 1, 0 => by intro _; rfl
  | y :: ys, i + 1, j + 1 => by
    intro h
    simp only [List.eraseIdx, List.get?_cons_succ]
    exact get?_eraseIdx_lt ys i j (by omega)

theorem get?_eraseIdx_ge {γ : Type} :
    ∀ (l : List γ) (i j : Nat), i ≤ j → i < l.length →
      (l.eraseIdx i).get? j = l.get? (j + 1)
  | [], i, j => by intro _ h; simp at h
  | y :: ys, 0, j => by intro _ _; rfl
  | y :: ys, i + 1, 0 => by intro h _; omega
  | y :: ys, i + 1, j + 1 => by
    intro h1 h2
    simp only [List.eraseIdx, List.get?_cons_succ]
    exact get?_eraseIdx_ge ys i j (by omega) (by simpa using h2)

theorem get?_lt_length {γ : Type} {l : List γ} {i : Nat} {p : γ}
    (h : l.get? i = some p) : i < l.length := by
  by_contra hc
  rw [List.get?_eq_none.mpr (by omega)] at h
  cases h

theorem length_eraseIdx_lt {γ : Type} :
    ∀ (l : List γ) (i : Nat), i < l.length → (l.eraseIdx i).length = l.length - 1
  | [], _ => by intro h; simp at h
  | y :: ys, 0 => by intro _; rfl
  | y :: ys, i + 1 => by
    intro h
    simp only [List.eraseIdx, List.length_cons]
    rw [length_eraseIdx_lt ys i (by simpa using h)]
    simp only [List.length_cons] at h
    omega

/-- Core of the reorder bookkeeping: a successful reorder during a run
leaves the active pointer on the same project (reading both lists at
their respective `current_index`). -/
theorem reorder_pointer_preserved {α β : Type} (s s' : PQState α β)
    (pid : String) (newPos : Int) (hproc : s.is_processing = true)
    (hre : reorder_project s pid newPos = (s', true)) :
    getAtInt s'.projects s'.current_index
      = getAtInt s.projects s.current_index := by
  unfold reorder_project at hre
  cases hf : findProject pid s.projects with
  | none =>
    rw [hf] at hre
    have := congrArg Prod.snd hre
    simp at this
  | some ip =>
    rw [hf] at hre
    dsimp only at hre
    by_cases hr : 0 ≤ newPos ∧ newPos < (s.projects.length : Int)
    · rw [if_pos hr] at hre
      by_cases hg : s.is_processing = true ∧ s.current_index = (ip.1 : Int) ∧
          assocGet s.status pid = some ProjectStatus.processing
      · rw [if_pos hg] at hre
        have := congrArg Prod.snd hre
        simp at this
      · rw [if_neg hg] at hre
        have hs' : s' = { s with
            projects := pyInsert ip.2 (s.projects.eraseIdx ip.1) newPos.toNat,
            current_index :=
              if s.is_processing = true then
                if (ip.1 : Int) = s.current_index then newPos
                else if (ip.1 : Int) < s.current_index ∧
                    newPos ≥ s.current_index then s.current_index - 1
                else if (ip.1 : Int) > s.current_index ∧
                    newPos ≤ s.current_index then s.current_index + 1
                else s.current_index
              else s.current_index } := (congrArg Prod.fst hre).symm
        subst hs'
        dsimp only
        rw [if_pos hproc]
        have hget : s.projects.get? ip.1 = some ip.2 :=
          findProject_get pid s.projects ip.1 ip.2 (by rw [hf])
        have hil : ip.1 < s.projects.length := get?_lt_length hget
        have hlerase : (s.projects.eraseIdx ip.1).length
            = s.projects.length - 1 := length_eraseIdx_lt s.projects ip.1 hil
        have hkle : newPos.toNat ≤ (s.projects.eraseIdx ip.1).length := by
          rw [hlerase]; omega
        by_cases hici : (ip.1 : Int) = s.current_index
        · rw [if_pos hici]
          unfold getAtInt
          rw [if_pos hr.1, if_pos (by omega)]
          rw [get?_pyInsert_self ip.2 _ newPos.toNat hkle]
          rw [show s.current_index.toNat = ip.1 by omega, hget]
        · rw [if_neg hici]
          by_cases hltc : (ip.1 : Int) < s.current_index ∧ newPos ≥ s.current_index
          · rw [if_pos hltc]
            have hciN : s.current_index < (s.projects.length : Int) := by omega
            unfold getAtInt
            rw [if_pos (by omega), if_pos (by omega)]
            rw [show (s.current_index - 1).toNat = s.current_index.toNat - 1 by omega]
            rw [get?_pyInsert_lt ip.2 _ newPos.toNat (s.current_index.toNat - 1)
              (by omega) hkle]
            rw [get?_eraseIdx_ge s.projects ip.1 (s.current_index.toNat - 1)
              (by omega) hil]
            congr 1
            omega
          · rw [if_neg hltc]
            by_cases hgtc : (ip.1 : Int) > s.current_index ∧ newPos ≤ s.current_index
            · rw [if_pos hgtc]
              unfold getAtInt
              rw [if_pos (by omega), if_pos (by omega)]
              rw [show (s.current_index + 1).toNat = s.current_index.toNat + 1 by omega]
              rw [get?_pyInsert_gt ip.2 _ newPos.toNat (s.current_index.toNat + 1)
                (by omega) hkle]
              rw [show s.current_index.toNat + 1 - 1 = s.current_index.toNat from rfl]
              rw [get?_eraseIdx_lt s.projects ip.1 s.current_index.toNat (by omega)]
            · rw [if_neg hgtc]
              by_cases hcip : 0 ≤ s.current_index
              · unfold getAtInt
                rw [if_pos hcip, if_pos hcip]
                by_cases hio : (ip.1 : Int) < s.current_index
                · have hnpci : newPos < s.current_index := by
                    rcases not_and_or.mp hltc with h | h
                    · omega
                    · omega
                  by_cases hcn : s.current_index.toNat < s.projects.length
                  · rw [get?_pyInsert_gt ip.2 _ newPos.toNat s.current_index.toNat
                      (by omega) hkle]
                    rw [get?_eraseIdx_ge s.projects ip.1 (s.current_index.toNat - 1)
                      (by omega) hil]
                    congr 1
                    omega
                  · rw [List.get?_eq_none.mpr (by rw [length_pyInsert, hlerase]; omega),
                      List.get?_eq_none.mpr (by omega)]
                · have hgt2 : s.current_index < (ip.1 : Int) := by omega
                  have hnp2 : s.current_index < newPos := by
                    rcases not_and_or.mp hgtc with h | h
                    · omega
                    · omega
                  rw [get?_pyInsert_lt ip.2 _ newPos.toNat s.current_index.toNat
                    (by omega) hkle]
                  rw [get?_eraseIdx_lt s.projects ip.1 s.current_index.toNat (by omega)]
              · unfold getAtInt
                rw [if_neg hcip, if_neg hcip]
    · rw [if_neg hr] at hre
      have := congrArg Prod.snd hre
      simp at this

/-- A concrete mid-run state: `p0` is already Completed, `p1` (at index
1) is the currently-Processing project. -/
def c8state : PQState Unit Unit :=
  { projects := [⟨"p0", ()⟩, ⟨"p1", ()⟩],
    status := [("p0", ProjectStatus.completed), ("p1", ProjectStatus.processing)],
    results := [], current_index := 1, is_processing := true }

/-- C8, counterexample: while a run is active, reordering the already
completed project `p0` (not the currently-Processing one) to position 1
succeeds and moves `current_index` from 1 down to 0 — the integer is not
monotonically non-decreasing. -/
theorem reorder_decreases_current_index :
    (reorder_project c8state "p0" 1).2 = true ∧
    (reorder_project c8state "p0" 1).1.current_index = 0 ∧
    c8state.current_index = 1 := by
  decide

/-- C8 (amended): during a run, the worker loop itself only ever
increments `current_index` (a skip step and a finish step each add one,
taking up a project leaves it unchanged); a successful `reorder_project`
may decrease the integer `current_index`, but it always adjusts it so
that it still refers to the same project as before the move. -/
theorem current_index_bookkeeping {α β : Type} :
    (∀ (s s' : PQState α β) (pid : String) (newPos : Int),
        s.is_processing = true → reorder_project s pid newPos = (s', true) →
        getAtInt s'.projects s'.current_index
          = getAtInt s.projects s.current_index) ∧
    (∀ s s' : PQState α β, workerSkip s = some s' →
        s'.current_index = s.current_index + 1) ∧
    (∀ (s s' : PQState α β) (success canceledFlag : Bool) (res : β),
        workerFinish s success canceledFlag res = some s' →
        s'.current_index = s.current_index + 1) ∧
    (∀ s s' : PQState α β, workerBegin s = some s' →
        s'.current_index = s.current_index) := by
  refine ⟨?_, ?_, ?_, ?_⟩
  · intro s s' pid newPos hproc hre
    exact reorder_pointer_preserved s s' pid newPos hproc hre
  · intro s s' h
    exact (workerSkip_spec s s' h).2.2
  · intro s s' success canceledFlag res h
    exact (workerFinish_spec s s' success canceledFlag res h).2
  · intro s s' h
    exact (workerBegin_spec s s' h).2

/-- The state produced by reordering `p0` to position 1 in `c8state`. -/
def c8result : PQState Unit Unit :=
  { projects := [⟨"p1", ()⟩, ⟨"p0", ()⟩],
    status := [("p0", ProjectStatus.completed), ("p1", ProjectStatus.processing)],
    results := [], current_index := 0, is_processing := true }

/-- Closed instance of `current_index_bookkeeping`: the reorder of
`c8state` that lowers the integer pointer from 1 to 0 still leaves it on
project `p1`. -/
theorem current_index_bookkeeping_witness :
    (c8state.is_processing = true ∧
      reorder_project c8state "p0" 1 = (c8result, true)) ∧
    getAtInt c8result.projects c8result.current_index
      = getAtInt c8state.projects c8state.current_index := by
  refine ⟨⟨rfl, by decide⟩, ?_⟩
  exact (current_index_bookkeeping (α := Unit) (β := Unit)).1
    c8state c8result "p0" 1 rfl (by decide)

/-! ## ProjectOrchestrator (`core/project_manager.py`) -/

/-- The member table of the `ProjectStatus` enum
(project_queue_manager.py:25-31) as seen by Python attribute access:
`ProjectStatus.NAME` yields a member for exactly these five names and
raises `AttributeError` (here `none`) for anything else. -/
def projectStatusAttr (n : String) : Option ProjectStatus :=
  if n = "PENDING" then some ProjectStatus.pending
  else if n = "PROCESSING" then some ProjectStatus.processing
  else if n = "COMPLETED" then some ProjectStatus.completed
  else if n = "FAILED" then some ProjectStatus.failed
  else if n = "CANCELED" then some ProjectStatus.canceled
  else none

/-- The status-update statement of `ProjectManager._process_project`
(project_manager.py:446-448), reached when every file compressed
successfully: if the project id is in the queue manager status map,
evaluate the attribute `ProjectStatus.VERIFYING` and assign it.
`Except.error` models the raised `AttributeError`. -/
def updateStatusToVerifying (status : List (String × ProjectStatus))
    (pid : String) : Except String (List (String × ProjectStatus)) :=
  if (assocGet status pid).isSome then
    match projectStatusAttr "VERIFYING" with
    | some st => Except.ok (assocSet status pid st)
    | none => Except.error "AttributeError: VERIFYING"
  else Except.ok status

/-- The Boolean returned by `ProjectManager._process_project`
(project_manager.py:227-525) as a function of the file-queue outcome.
On file-queue success the success branch (lines 438-512) runs inside the
`try` opened at line 239, whose `except Exception` (line 520) returns
`(False, error-dict)`; the verification/cleanup continuation after the
status update never changes `success` (its own exceptions are caught
locally at lines 506-508), so the branch returns `true` iff the status
update does not raise. On file-queue failure the branch is skipped and
the `False` from the file queue is returned (line 518). -/
def processProjectReturn (status : List (String × ProjectStatus))
    (pid : String) (filesSuccess : Bool) : Bool :=
  if filesSuccess then
    match updateStatusToVerifying status pid with
    | Except.ok _ => true
    | Except.error _ => false
  else false

/-- C1: the `ProjectStatus` enum has no `VERIFYING` member, so the
status update that `_process_project` attempts after an all-files-
succeeded run raises `AttributeError`; the surrounding `except` turns
the project outcome into failure — the all-files-succeeded branch never
completes and the Verifying state is unreachable (there is no such
state to reach). -/
theorem verifying_attribute_error :
    projectStatusAttr "VERIFYING" = none ∧
    (∀ (status : List (String × ProjectStatus)) (pid : String),
      (assocGet status pid).isSome = true →
      updateStatusToVerifying status pid
          = Except.error "AttributeError: VERIFYING" ∧
      processProjectReturn status pid true = false) ∧
    processProjectReturn [("p1", ProjectStatus.processing)] "p1" true = false := by
  refine ⟨rfl, ?_, by decide⟩
  intro status pid hm
  have hupd : updateStatusToVerifying status pid
      = Except.error "AttributeError: VERIFYING" := by
    unfold updateStatusToVerifying
    rw [if_pos hm]
    rfl
  refine ⟨hupd, ?_⟩
  unfold processProjectReturn
  rw [if_pos rfl, hupd]

/-- Closed instance of `verifying_attribute_error` at a one-project
status map. -/
theorem verifying_attribute_error_witness :
    ((assocGet [("p2", ProjectStatus.processing)] "p2").isSome = true) ∧
    (updateStatusToVerifying [("p2", ProjectStatus.processing)] "p2"
        = Except.error "AttributeError: VERIFYING" ∧
      processProjectReturn [("p2", ProjectStatus.processing)] "p2" true
        = false) := by
  refine ⟨by decide, ?_⟩
  exact verifying_attribute_error.2.1 [("p2", ProjectStatus.processing)] "p2"
    (by decide)

/-- The keyword parameters accepted by
`ProjectQueueManager.start_processing` (project_queue_manager.py:376-380):
`process_project_func` and `progress_callback` only. -/
def pqmStartParams : List String := ["process_project_func", "progress_callback"]

/-- The keyword arguments that `ProjectManager.start_processing` passes
in its delegation call (project_manager.py:174-178). -/
def managerStartKwargs : List String :=
  ["process_project_func", "progress_callback", "completion_callback"]

/-- Python keyword-call semantics: every keyword argument must name a
parameter of the callee, otherwise the call raises `TypeError` before
the callee body runs. -/
def acceptsKwargs (params kwargs : List String) : Bool :=
  kwargs.all (fun k => params.contains k)

/-- Model of `ProjectManager.start_processing`
(project_manager.py:151-186): return `False` when already processing,
otherwise delegate to `ProjectQueueManager.start_processing` with the
keyword arguments of lines 175-177. `queueStartResult` stands for
whatever the delegated call would return if it were callable;
`Except.error` models the raised `TypeError`. -/
def managerStartProcessing (isProcessing queueStartResult : Bool) :
    Except String Bool :=
  if isProcessing then Except.ok false
  else if acceptsKwargs pqmStartParams managerStartKwargs then
    Except.ok queueStartResult
  else
    Except.error "TypeError: unexpected keyword argument completion_callback"

/-- C2: the orchestrator passes a `completion_callback` keyword that
`ProjectQueueManager.start_processing` does not declare, so every
not-already-processing start raises `TypeError` instead of returning a
Boolean, and the registered queue-completion callback can never fire
(the queue manager has no completion-callback mechanism at all). -/
theorem start_completion_callback_type_error :
    acceptsKwargs pqmStartParams managerStartKwargs = false ∧
    "completion_callback" ∉ pqmStartParams ∧
    (∀ queueStartResult : Bool,
      managerStartProcessing false queueStartResult
        = Except.error
            "TypeError: unexpected keyword argument completion_callback") := by
  refine ⟨by decide, by decide, ?_⟩
  intro queueStartResult
  rfl

/-! ## Stage-aside copy (`core/file_preparation.py`) -/

/-- Environment for `copy_non_cam_folders`: the names of the entries of
`old_dir` that are directories (in `os.listdir` order), and whether
copying the contents of each one succeeds (`false` models an exception
raised by `os.makedirs`/`shutil` while handling that subfolder). -/
structure CopyEnv where
  subdirs : List String
  copyOk : String → Bool

/-- The non-CAM filter of `copy_non_cam_folders`
(file_preparation.py:384): keep subfolder names whose uppercased form
does not contain `CAM`. -/
def nonCamFolders (subdirs : List String) : List String :=
  subdirs.filter (fun d => !(strContains (strUpper d) "CAM"))

/-- The copy loop of `copy_non_cam_folders` (file_preparation.py:379-450):
the whole loop sits inside one `try`, so the first failing subfolder
jumps to the outer `except` (line 448), which returns `folders_copied`
as it stands — no later subfolder is attempted. Returns the count the
function reports and the list of subfolders actually copied. -/
def copyLoop (copyOk : String → Bool) : List String → Nat × List String
  | [] => (0, [])
  | d :: rest =>
    if copyOk d then
      let r := copyLoop copyOk rest
      (r.1 + 1, d :: r.2)
    else (0, [])

/-- Model of `copy_non_cam_folders` (file_preparation.py:360-450). -/
def copy_non_cam_folders (env : CopyEnv) : Nat × List String :=
  copyLoop env.copyOk (nonCamFolders env.subdirs)

/-- The subfolders `AAA` (copy fails) and `BBB` (copy would succeed). -/
def c7env : CopyEnv := ⟨["AAA", "BBB"], fun d => d = "BBB"⟩

/-- C7, counterexample: with two non-camera subfolders where copying the
first fails and the second would succeed, the claim predicts that `BBB`
is still copied and the count is 1; the code stops at the first failure
and returns 0 with nothing copied. -/
theorem copy_aborts_on_failure_counterexample :
    ¬ ((copy_non_cam_folders c7env).1 = 1 ∧
       "BBB" ∈ (copy_non_cam_folders c7env).2) := by
  decide

/-- C7 (amended): a failure while copying a non-camera subfolder is
caught by the single `try`/`except` wrapped around the whole loop: the
routine returns — without raising — the number of subfolders fully
copied before the first failure, and the remaining subfolders are left
uncopied (exactly the longest all-successful prefix is copied). -/
theorem copy_non_cam_stops_at_first_failure (env : CopyEnv) :
    copy_non_cam_folders env
      = (((nonCamFolders env.subdirs).takeWhile env.copyOk).length,
         (nonCamFolders env.subdirs).takeWhile env.copyOk) := by
  unfold copy_non_cam_folders
  generalize nonCamFolders env.subdirs = l
  induction l with
  | nil => rfl
  | cons d rest ih =>
    simp only [copyLoop, List.takeWhile_cons]
    by_cases h : env.copyOk d = true
    · rw [if_pos h, if_pos h, ih]
      rfl
    · rw [if_neg h, if_neg h]
      rfl

/-! ## VerificationEngine (`core/verification_utils.py`)

The probing tool and the filesystem are abstracted into an environment;
media properties are an opaque `γ` and `compare_media_properties` is the
environment's `compare` field (no claim depends on the individual
comparison checks). A verification record keeps the file identities and
the status string; the property payloads and mismatch strings carried
alongside in the Python dictionaries are elided, as no claim inspects
them. -/

/-- The two Python exception kinds that can escape
`get_media_properties`: `TypeError` (from `os.path.exists(None)`) and
`FileNotFoundError` (from `subprocess.Popen` when `ffprobe` is not on
the PATH, logged and re-raised at verification_utils.py:100-103). -/
inductive PyExc
  | typeErr | fileNotFound
  deriving DecidableEq, Repr

/-- Environment of a verification run. -/
structure VerifyEnv (γ : Type) where
  /-- Whether the `ffprobe` executable is on the PATH. -/
  ffprobeOnPath : Bool
  /-- `os.path.exists` on real paths. -/
  pathExists : String → Bool
  /-- `os.path.isdir`. -/
  isDir : String → Bool
  /-- Outcome of a real `ffprobe` run on a file: `some` properties, or
  `none` for a per-file probe failure (nonzero exit status, timeout,
  undecodable JSON — all returned as `None` by the Python code). -/
  probe : String → Option γ
  /-- `compare_media_properties`: the list of mismatch descriptions. -/
  compare : γ → γ → List String

/-- Model of `get_media_properties` (verification_utils.py:13-109).
The argument is `Option String` because `verify_media_conversions`
deliberately calls it with `None`: `os.path.exists(None)` raises
`TypeError` before any subprocess is attempted. On a real path: a
missing file returns `None`; a missing `ffprobe` executable makes
`subprocess.Popen` raise `FileNotFoundError`, which the function logs
and re-raises; any other probe failure returns `None`. -/
def get_media_properties {γ : Type} (env : VerifyEnv γ) :
    Option String → Except PyExc (Option γ)
  | none => Except.error PyExc.typeErr
  | some p =>
    if env.pathExists p = false then Except.ok none
    else if env.ffprobeOnPath = false then Except.error PyExc.fileNotFound
    else Except.ok (env.probe p)

/-- A verification record: file identities and status (property payloads
elided). -/
structure VRecord where
  original_file : Option String
  converted_file : Option String
  status : String
  deriving DecidableEq, Repr

/-- The loop of `verify_media_conversions` over the discovered original
files (verification_utils.py:346-399): per stem, skip directories, probe
the original (a raised `FileNotFoundError` propagates — there is no
`try` around this loop), emit `ORIGINAL_ERROR` on a per-file probe
failure, look up the converted counterpart (recording its stem as
processed when found), and emit `CONVERTED_ERROR` / `MATCH` /
`MISMATCH` / `CONVERTED_MISSING` accordingly. Returns the records in
iteration order and the processed converted stems. -/
def verifyOrigLoop {γ : Type} (env : VerifyEnv γ)
    (convFiles : List (String × String)) :
    List (String × String) → Except PyExc (List VRecord × List String)
  | [] => Except.ok ([], [])
  | (stem, opath) :: rest =>
    if env.isDir opath = true then
      verifyOrigLoop env convFiles rest
    else
      match get_media_properties env (some opath) with
      | Except.error e => Except.error e
      | Except.ok none =>
        match verifyOrigLoop env convFiles rest with
        | Except.error e => Except.error e
        | Except.ok (recs, stems) =>
          Except.ok (⟨some opath, none, "ORIGINAL_ERROR"⟩ :: recs, stems)
      | Except.ok (some oprops) =>
        match assocGet convFiles stem with
        | some cpath =>
          if env.isDir cpath = true then
            match verifyOrigLoop env convFiles rest with
            | Except.error e => Except.error e
            | Except.ok (recs, stems) =>
              Except.ok (⟨some opath, some cpath, "CONVERTED_ERROR"⟩ :: recs,
                stem :: stems)
          else
            match get_media_properties env (some cpath) with
            | Except.error e => Except.error e
            | Except.ok none =>
              match verifyOrigLoop env convFiles rest with
              | Except.error e => Except.error e
              | Except.ok (recs, stems) =>
                Except.ok (⟨some opath, some cpath, "CONVERTED_ERROR"⟩ :: recs,
                  stem :: stems)
            | Except.ok (some cprops) =>
              match verifyOrigLoop env convFiles rest with
              | Except.error e => Except.error e
              | Except.ok (recs, stems) =>
                Except.ok
                  (⟨some opath, some cpath,
                      if env.compare oprops cprops = [] then "MATCH"
                      else "MISMATCH"⟩ :: recs,
                    stem :: stems)
        | none =>
          match verifyOrigLoop env convFiles rest with
          | Except.error e => Except.error e
          | Except.ok (recs, stems) =>
            Except.ok (⟨some opath, none, "CONVERTED_MISSING"⟩ :: recs, stems)

/-- The orphan loop of `verify_media_conversions`
(verification_utils.py:402-417): converted files whose stem was never
matched get an `ORIGINAL_MISSING` record (their probe result is fetched
for context — so a missing `ffprobe` raises here too — but the status
does not depend on it). -/
def verifyOrphanLoop {γ : Type} (env : VerifyEnv γ) (processed : List String) :
    List (String × String) → Except PyExc (List VRecord)
  | [] => Except.ok []
  | (stem, cpath) :: rest =>
    if processed.contains stem then verifyOrphanLoop env processed rest
    else if env.isDir cpath = true then verifyOrphanLoop env processed rest
    else
      match get_media_properties env (some cpath) with
      | Except.error e => Except.error e
      | Except.ok _ =>
        match verifyOrphanLoop env processed rest with
        | Except.error e => Except.error e
        | Except.ok recs =>
          Except.ok (⟨none, some cpath, "ORIGINAL_MISSING"⟩ :: recs)

/-- Model of `verify_media_conversions` (verification_utils.py:259-419)
applied to the two folders and their discovered stem→path maps (the
`find_media_files` walks are abstracted as inputs; their `OSError`
handling is not exercised here). The opening `try` probes
`get_media_properties(None)`: a `FileNotFoundError` would short-circuit
with the single `FFPROBE_NOT_FOUND` record, a `TypeError` is passed
over. A missing original folder short-circuits with an
`ERROR_ORIGINAL_FOLDER_NOT_FOUND` record; a missing converted folder
merely leaves the converted map empty. -/
def verify_media_conversions {γ : Type} (env : VerifyEnv γ)
    (origFolder convFolder : String)
    (origFiles convFiles : List (String × String)) :
    Except PyExc (List VRecord) :=
  match get_media_properties env (none : Option String) with
  | Except.error PyExc.fileNotFound =>
    Except.ok [⟨some origFolder, some convFolder, "FFPROBE_NOT_FOUND"⟩]
  | _ =>
    if env.isDir origFolder = false then
      Except.ok [⟨some origFolder, some convFolder,
        "ERROR_ORIGINAL_FOLDER_NOT_FOUND"⟩]
    else
      let convFiles' := if env.isDir convFolder = true then convFiles else []
      match verifyOrigLoop env convFiles' origFiles with
      | Except.error e => Except.error e
      | Except.ok (recs, processed) =>
        match verifyOrphanLoop env processed convFiles' with
        | Except.error e => Except.error e
        | Except.ok orecs => Except.ok (recs ++ orecs)

theorem verifyOrigLoop_status {γ : Type} (env : VerifyEnv γ)
    (convFiles : List (String × String)) :
    ∀ (ofs : List (String × String)) (recs : List VRecord)
      (stems : List String),
      verifyOrigLoop env convFiles ofs = Except.ok (recs, stems) →
      ∀ r ∈ recs, r.status ≠ "FFPROBE_NOT_FOUND"
  | [], recs, stems => by
    intro h r hr
    cases h
    simp at hr
  | (stem, opath) :: rest, recs, stems => by
    intro h r hr
    unfold verifyOrigLoop at h
    by_cases hd : env.isDir opath = true
    · rw [if_pos hd] at h
      exact verifyOrigLoop_status env convFiles rest recs stems h r hr
    · rw [if_neg hd] at h
      cases hg : get_media_properties env (some opath) with
      | error e => rw [hg] at h; cases h
      | ok oprops =>
        rw [hg] at h
        cases oprops with
        | none =>
          dsimp only at h
          cases hrec : verifyOrigLoop env convFiles rest with
          | error e => rw [hrec] at h; cases h
          | ok pr =>
            obtain ⟨recs', stems'⟩ := pr
            rw [hrec] at h
            simp only [Except.ok.injEq, Prod.mk.injEq] at h
            obtain ⟨h1, h2⟩ := h
            subst h1
            rcases List.mem_cons.mp hr with rfl | hr'
            · simp
            · exact verifyOrigLoop_status env convFiles rest recs' stems'
                hrec r hr'
        | some oprops =>
          dsimp only at h
          cases hc : assocGet convFiles stem with
          | some cpath =>
            rw [hc] at h
            dsimp only at h
            by_cases hcd : env.isDir cpath = true
            · rw [if_pos hcd] at h
              cases hrec : verifyOrigLoop env convFiles rest with
              | error e => rw [hrec] at h; cases h
              | ok pr =>
                obtain ⟨recs', stems'⟩ := pr
                rw [hrec] at h
                simp only [Except.ok.injEq, Prod.mk.injEq] at h
                obtain ⟨h1, h2⟩ := h
                subst h1
                rcases List.mem_cons.mp hr with rfl | hr'
                · simp
                · exact verifyOrigLoop_status env convFiles rest recs' stems'
                    hrec r hr'
            · rw [if_neg hcd] at h
              cases hg2 : get_media_properties env (some cpath) with
              | error e => rw [hg2] at h; cases h
              | ok cprops =>
                rw [hg2] at h
                cases cprops with
                | none =>
                  dsimp only at h
                  cases hrec : verifyOrigLoop env convFiles rest with
                  | error e => rw [hrec] at h; cases h
                  | ok pr =>
                    obtain ⟨recs', stems'⟩ := pr
                    rw [hrec] at h
                    simp only [Except.ok.injEq, Prod.mk.injEq] at h
                    obtain ⟨h1, h2⟩ := h
                    subst h1
                    rcases List.mem_cons.mp hr with rfl | hr'
                    · simp
                    · exact verifyOrigLoop_status env convFiles rest recs'
                        stems' hrec r hr'
                | some cprops =>
                  dsimp only at h
                  cases hrec : verifyOrigLoop env convFiles rest with
                  | error e => rw [hrec] at h; cases h
                  | ok pr =>
                    obtain ⟨recs', stems'⟩ := pr
                    rw [hrec] at h
                    simp only [Except.ok.injEq, Prod.mk.injEq] at h
                    obtain ⟨h1, h2⟩ := h
                    subst h1
                    rcases List.mem_cons.mp hr with rfl | hr'
                    · by_cases hcmp : env.compare oprops cprops = []
                      · simp [hcmp]
                      · simp [hcmp]
                    · exact verifyOrigLoop_status env convFiles rest recs'
                        stems' hrec r hr'
          | none =>
            rw [hc] at h
            dsimp only at h
            cases hrec : verifyOrigLoop env convFiles rest with
            | error e => rw [hrec] at h; cases h
            | ok pr =>
              obtain ⟨recs', stems'⟩ := pr
              rw [hrec] at h
              simp only [Except.ok.injEq, Prod.mk.injEq] at h
              obtain ⟨h1, h2⟩ := h
              subst h1
              rcases List.mem_cons.mp hr with rfl | hr'
              · simp
              · exact verifyOrigLoop_status env convFiles rest recs' stems'
                  hrec r hr'

theorem verifyOrphanLoop_status {γ : Type} (env : VerifyEnv γ)
    (processed : List String) :
    ∀ (cfs : List (String × String)) (recs : List VRecord),
      verifyOrphanLoop env processed cfs = Except.ok recs →
      ∀ r ∈ recs, r.status ≠ "FFPROBE_NOT_FOUND"
  | [], recs => by
    intro h r hr
    cases h
    simp at hr
  | (stem, cpath) :: rest, recs => by
    intro h r hr
    unfold verifyOrphanLoop at h
    by_cases hp : processed.contains stem = true
    · rw [if_pos hp] at h
      exact verifyOrphanLoop_status env processed rest recs h r hr
    · rw [if_neg hp] at h
      by_cases hd : env.isDir cpath = true
      · rw [if_pos hd] at h
        exact verifyOrphanLoop_status env processed rest recs h r hr
      · rw [if_neg hd] at h
        cases hg : get_media_properties env (some cpath) with
        | error e => rw [hg] at h; cases h
        | ok cprops =>
          rw [hg] at h
          dsimp only at h
          cases hrec : verifyOrphanLoop env processed rest with
          | error e => rw [hrec] at h; cases h
          | ok recs' =>
            rw [hrec] at h
            simp only [Except.ok.injEq] at h
            subst h
            rcases List.mem_cons.mp hr with rfl | hr'
            · simp
            · exact verifyOrphanLoop_status env processed rest recs' hrec r hr'

/-- The environment of a verification attempt with `ffprobe` absent:
both folders exist as directories, the single original media file
exists, and (hypothetically) probing would succeed. -/
def c6env : VerifyEnv Unit :=
  { ffprobeOnPath := false,
    pathExists := fun _ => true,
    isDir := fun p => p = "orig" || p = "conv",
    probe := fun _ => some (),
    compare := fun _ _ => [] }

/-- C6: the availability pre-check of `verify_media_conversions` calls
`get_media_properties(None)`, and `os.path.exists(None)` raises
`TypeError` before any subprocess is attempted — so the check can never
observe the missing tool and the `FFPROBE_NOT_FOUND` short-circuit is
dead code. With `ffprobe` absent, the first real per-file probe raises
`FileNotFoundError`, which propagates out of `verify_media_conversions`
(there is no handler around the loops): the call raises instead of
returning the claimed single-record report, and no returned report of
any run ever contains an `FFPROBE_NOT_FOUND` record. -/
theorem ffprobe_missing_crashes_verify :
    (∀ (γ : Type) (env : VerifyEnv γ),
      get_media_properties env none = Except.error PyExc.typeErr) ∧
    verify_media_conversions c6env "orig" "conv" [("a", "orig/a.mov")] []
      = Except.error PyExc.fileNotFound ∧
    (∀ (γ : Type) (env : VerifyEnv γ) (origFolder convFolder : String)
      (origFiles convFiles : List (String × String)) (r : List VRecord),
      verify_media_conversions env origFolder convFolder origFiles convFiles
          = Except.ok r →
      ∀ rec ∈ r, rec.status ≠ "FFPROBE_NOT_FOUND") := by
  refine ⟨fun γ env => rfl, by rfl, ?_⟩
  intro γ env origFolder convFolder origFiles convFiles r h rec hrec
  unfold verify_media_conversions at h
  rw [show get_media_properties env (none : Option String)
      = Except.error PyExc.typeErr from rfl] at h
  dsimp only at h
  by_cases hod : env.isDir origFolder = false
  · rw [if_pos hod] at h
    simp only [Except.ok.injEq] at h
    subst h
    rcases List.mem_singleton.mp hrec with rfl
    simp
  · rw [if_neg hod] at h
    cases horig : verifyOrigLoop env
        (if env.isDir convFolder = true then convFiles else []) origFiles with
    | error e => rw [horig] at h; cases h
    | ok pr =>
      obtain ⟨recs, processed⟩ := pr
      rw [horig] at h
      dsimp only at h
      cases horph : verifyOrphanLoop env processed
          (if env.isDir convFolder = true then convFiles else []) with
      | error e => rw [horph] at h; cases h
      | ok orecs =>
        rw [horph] at h
        simp only [Except.ok.injEq] at h
        subst h
        rcases List.mem_append.mp hrec with hm | hm
        · exact verifyOrigLoop_status env _ origFiles recs processed horig
            rec hm
        · exact verifyOrphanLoop_status env processed _ orecs horph rec hm

/-- Closed instance of `ffprobe_missing_crashes_verify`: a successful
run (tool present, one matching pair) whose single record is a `MATCH`,
not `FFPROBE_NOT_FOUND`. -/
theorem ffprobe_missing_crashes_verify_witness :
    (verify_media_conversions
        ({ ffprobeOnPath := true, pathExists := fun _ => true,
           isDir := fun p => p = "orig" || p = "conv",
           probe := fun _ => some (), compare := fun _ _ => [] } : VerifyEnv Unit)
        "orig" "conv" [("a", "orig/a.mov")] [("a", "conv/a.mov")]
      = Except.ok [⟨some "orig/a.mov", some "conv/a.mov", "MATCH"⟩]) ∧
    (⟨some "orig/a.mov", some "conv/a.mov", "MATCH"⟩ : VRecord).status
      ≠ "FFPROBE_NOT_FOUND" := by
  refine ⟨by rfl, ?_⟩
  exact ffprobe_missing_crashes_verify.2.2 Unit
    { ffprobeOnPath := true, pathExists := fun _ => true,
      isDir := fun p => p = "orig" || p = "conv",
      probe := fun _ => some (), compare := fun _ _ => [] }
    "orig" "conv" [("a", "orig/a.mov")] [("a", "conv/a.mov")]
    [⟨some "orig/a.mov", some "conv/a.mov", "MATCH"⟩] (by rfl)
    ⟨some "orig/a.mov", some "conv/a.mov", "MATCH"⟩ (by simp)

end FYRC
